import Mathlib

/-!
Verification of the track-generation core of `src/index.py`
(class `TrackGenerator`).

The Python class is shallowly embedded as a Lean structure `GenState`
together with pure state-transition functions, one per method.

Modelling conventions:

* Python floats are idealised as rationals (`ℚ`).  Angle arithmetic,
  thresholds and random draws are exact rational arithmetic.
* The seeded pseudo-random stream `random.Random(seed)` is modelled by a
  function `rng : ℕ → ℚ` held in the state together with a draw counter
  `rngCtr`; the k-th call to the `random` object reads `rng k`.  The map
  from a seed to its stream is deterministic in Python, so two generators
  built from the same seed share the same `rng`.
  - `random.random()` is `fracPart (rng k)`, a value in `[0,1)`;
  - `random.uniform a b` is `a + (b-a) * fracPart (rng k)`;
  - `random.randint a b` (inclusive bounds, as in Python) is
    `a + ⌊rng k⌋ % (b - a + 1)`, a value in `[a,b]`.
* `math.cos (math.radians θ)` and `math.sin (math.radians θ)` are
  transcendental, hence not exactly computable on `ℚ`; they are modelled
  by uninterpreted parameters `cosd sind : ℚ → ℚ` passed to the two
  functions that move the position.  No claim under scrutiny depends on
  trigonometric values.
* The two `while` loops of `normalize_angle` are modelled by
  structurally recursive loop bodies with an explicit iteration bound
  (`normalizeFuel`); the bound is proved large enough, i.e. the loop
  exits with its guard false.
-/

namespace TrackVisual

/-- Fractional part of a rational.  `fracPart (rng k)` models the draw
`random.random()`, a value in the half-open unit interval `[0,1)`. -/
def fracPart (s : ℚ) : ℚ := s - ⌊s⌋

/-- Models `random.uniform a b`: `a + (b-a) * random.random()`. -/
def uniform (a b s : ℚ) : ℚ := a + (b - a) * fracPart s

/-- Models `random.randint a b`: a uniform integer with INCLUSIVE bounds
`a ≤ r ≤ b`, as specified by the Python standard library. -/
def randint (a b : ℤ) (s : ℚ) : ℤ := a + ⌊s⌋ % (b - a + 1)

/-- Body of the first loop of `normalize_angle`:
`while angle > 180: angle -= 360`, with an explicit iteration bound. -/
def normalizeDown : ℕ → ℚ → ℚ
  | 0, a => a
  | n + 1, a => if a > 180 then normalizeDown n (a - 360) else a

/-- Body of the second loop of `normalize_angle`:
`while angle < -180: angle += 360`, with an explicit iteration bound. -/
def normalizeUp : ℕ → ℚ → ℚ
  | 0, a => a
  | n + 1, a => if a < -180 then normalizeUp n (a + 360) else a

/-- Iteration bound for the normalization loops: `⌈|a|⌉` iterations are
(amply) enough, as proved below (each iteration on an out-of-range angle
strictly decreases this bound). -/
def normalizeFuel (a : ℚ) : ℕ := (⌈|a|⌉).toNat

/-- `TrackGenerator.normalize_angle` (src/index.py lines 42-48): run the
`angle -= 360` loop, then the `angle += 360` loop.  A pure function. -/
def normalize_angle (a : ℚ) : ℚ :=
  let b := normalizeDown (normalizeFuel a) a
  normalizeUp (normalizeFuel b) b

/-- The mutable state of a `TrackGenerator` instance
(src/index.py lines 10-40), one field per Python attribute.
`rng`/`rngCtr` stand for the `self.random = random.Random(seed)` object. -/
structure GenState where
  rng : ℕ → ℚ
  rngCtr : ℕ
  step_length : ℚ
  num_points : ℤ
  current_position : ℚ × ℚ
  track_points : List (ℚ × ℚ)
  current_direction_angle : ℚ
  target_direction_angle : ℚ
  previous_angles : List ℚ
  initial_direction : ℚ
  cumulative_turn : ℚ
  steps_until_next_turn : ℤ
  turn_indices : List ℕ
  turning : Bool
  turn_steps_remaining : ℤ
  turn_total_steps : ℤ
  turn_angle_increment : ℚ
  max_turn_angle : ℚ
  max_cumulative_turn : ℚ
  backtrack_threshold : ℚ

/-- `TrackGenerator.__init__` (src/index.py lines 10-40).  The
constructor performs no validation whatsoever: every field is assigned
directly from the arguments or from constants.  `randint 20 50 (rng 0)`
is the constructor's single random draw (`self.random.randint(20, 50)`). -/
def init (rng : ℕ → ℚ) (step_length : ℚ) (num_points : ℤ) : GenState :=
  { rng := rng
    rngCtr := 1
    step_length := step_length
    num_points := num_points
    current_position := (0, 0)
    track_points := [(0, 0)]
    current_direction_angle := 0
    target_direction_angle := 0
    previous_angles := [0, 0, 0, 0, 0]
    initial_direction := 0
    cumulative_turn := 0
    steps_until_next_turn := randint 20 50 (rng 0)
    turn_indices := []
    turning := false
    turn_steps_remaining := 0
    turn_total_steps := 0
    turn_angle_increment := 0
    max_turn_angle := 60
    max_cumulative_turn := 120
    backtrack_threshold := 120 }

/-- `TrackGenerator.get_smoothed_angle` (src/index.py lines 50-52):
`np.mean(self.previous_angles[-3:])`.  The Python slice `l[-3:]` is
`drop (length - 3)` (the whole list when shorter than 3). -/
def get_smoothed_angle (s : GenState) : ℚ :=
  let t := s.previous_angles.drop (s.previous_angles.length - 3)
  t.sum / (t.length : ℚ)

/-- `TrackGenerator.would_cause_backtrack` (src/index.py lines 54-68).
Both checks compute the same quantity
`abs(normalize_angle(proposed - initial))`; the source performs them
sequentially against `backtrack_threshold` and `max_cumulative_turn`. -/
def would_cause_backtrack (s : GenState) (proposed_angle : ℚ) : Bool :=
  let angle_from_initial := |normalize_angle (proposed_angle - s.initial_direction)|
  if angle_from_initial > s.backtrack_threshold then true
  else
    let total_turn_from_initial := |normalize_angle (proposed_angle - s.initial_direction)|
    if total_turn_from_initial > s.max_cumulative_turn then true
    else false

/-- `TrackGenerator.get_safe_turn_angle` (src/index.py lines 70-91).
Reads the state, mutates nothing, and returns the safe delta: the
desired delta if its candidate heading is safe, else `0.3` of it, else
`-0.2` of it, else `0`. -/
def get_safe_turn_angle (s : GenState) (desired_angle : ℚ) : ℚ :=
  let proposed1 := normalize_angle (s.current_direction_angle + desired_angle)
  if would_cause_backtrack s proposed1 then
    let safe2 := desired_angle * (3 / 10)
    let proposed2 := normalize_angle (s.current_direction_angle + safe2)
    if would_cause_backtrack s proposed2 then
      let safe3 := -desired_angle * (2 / 10)
      let proposed3 := normalize_angle (s.current_direction_angle + safe3)
      if would_cause_backtrack s proposed3 then (0 : ℚ)
      else safe3
    else safe2
  else desired_angle

/-- `TrackGenerator.start_big_turn` (src/index.py lines 93-114).
Draw order as in the source: `uniform(20,50)`, then `random()` for the
sign, then (after computing the safe angle and target) `randint(15,30)`
for the duration.  Appends `len(self.track_points)` to `turn_indices`. -/
def start_big_turn (s : GenState) : GenState :=
  let big_turn_angle :=
    uniform 20 50 (s.rng s.rngCtr) *
      (if fracPart (s.rng (s.rngCtr + 1)) < 1 / 2 then 1 else -1)
  let safe := get_safe_turn_angle s big_turn_angle
  let target := normalize_angle (s.current_direction_angle + safe)
  let total := randint 15 30 (s.rng (s.rngCtr + 2))
  let angle_diff := normalize_angle (target - s.current_direction_angle)
  { s with
      rngCtr := s.rngCtr + 3
      target_direction_angle := target
      turn_total_steps := total
      turn_steps_remaining := total
      turn_angle_increment := angle_diff / (total : ℚ)
      turning := true
      turn_indices := s.turn_indices ++ [s.track_points.length] }

/-- `TrackGenerator.step_turn` (src/index.py lines 116-133): one step of
a smooth big turn; commits the incremented heading only when it would
not backtrack, otherwise aborts the turn. -/
def step_turn (s : GenState) : GenState :=
  if s.turn_steps_remaining > 0 then
    let new_angle := s.current_direction_angle + s.turn_angle_increment
    if would_cause_backtrack s new_angle = false then
      { s with
          current_direction_angle := normalize_angle new_angle
          previous_angles := s.previous_angles ++ [normalize_angle new_angle]
          turn_steps_remaining := s.turn_steps_remaining - 1 }
    else
      { s with turning := false, turn_steps_remaining := 0 }
  else
    { s with turning := false, target_direction_angle := s.current_direction_angle }

/-- The decision part of `TrackGenerator.generate_next_point`
(src/index.py lines 136-176): everything before the forward move.
Random draws are read off the stream in source order. -/
def decision_phase (s : GenState) : GenState :=
  if s.turning then step_turn s
  else
    if s.steps_until_next_turn > 0 then
      let noise := uniform (-1) 1 (s.rng s.rngCtr)
      let s1 := { s with
        steps_until_next_turn := s.steps_until_next_turn - 1
        rngCtr := s.rngCtr + 1 }
      let proposed_angle := get_smoothed_angle s1 + noise
      if would_cause_backtrack s1 proposed_angle = false then
        { s1 with
            current_direction_angle := normalize_angle proposed_angle
            previous_angles := s1.previous_angles ++ [normalize_angle proposed_angle] }
      else s1
    else
      let countdown := randint 30 70 (s.rng s.rngCtr)
      let turn_type_roll := fracPart (s.rng (s.rngCtr + 1))
      if turn_type_roll < 85 / 100 then
        let small_turn_angle :=
          uniform 2 15 (s.rng (s.rngCtr + 2)) *
            (if fracPart (s.rng (s.rngCtr + 3)) < 1 / 2 then 1 else -1)
        let s1 := { s with
          steps_until_next_turn := countdown
          rngCtr := s.rngCtr + 4 }
        let safe_turn_angle := get_safe_turn_angle s1 small_turn_angle
        let s2 := { s1 with
          current_direction_angle :=
            normalize_angle (s1.current_direction_angle + safe_turn_angle)
          previous_angles := s1.previous_angles ++
            [normalize_angle (s1.current_direction_angle + safe_turn_angle)] }
        if |safe_turn_angle| > 1 / 2 then
          { s2 with turn_indices := s2.turn_indices ++ [s2.track_points.length] }
        else s2
      else
        let s1 := { s with
          steps_until_next_turn := countdown
          rngCtr := s.rngCtr + 2 }
        start_big_turn s1

/-- The movement part of `TrackGenerator.generate_next_point`
(src/index.py lines 178-185): advance `step_length` along the current
heading and append the new position.  `cosd`/`sind` stand for
`math.cos(math.radians θ)` / `math.sin(math.radians θ)`. -/
def move_forward (cosd sind : ℚ → ℚ) (s : GenState) : GenState :=
  let dx := cosd s.current_direction_angle * s.step_length
  let dy := sind s.current_direction_angle * s.step_length
  let new_pos := (s.current_position.1 + dx, s.current_position.2 + dy)
  { s with
      current_position := new_pos
      track_points := s.track_points ++ [new_pos] }

/-- `TrackGenerator.generate_next_point` (src/index.py lines 135-185):
the decision block followed by the forward move. -/
def generate_next_point (cosd sind : ℚ → ℚ) (s : GenState) : GenState :=
  move_forward cosd sind (decision_phase s)

/-- `n` consecutive calls to `generate_next_point`. -/
def stepN (cosd sind : ℚ → ℚ) : ℕ → GenState → GenState
  | 0, s => s
  | n + 1, s => generate_next_point cosd sind (stepN cosd sind n s)

/-- `TrackGenerator.generate_full_track` (src/index.py lines 187-190):
`for _ in range(self.num_points): self.generate_next_point()`, then
return `(track_points, turn_indices)`.  `range` of a negative integer is
empty, hence the `Int.toNat` iteration count. -/
def generate_full_track (cosd sind : ℚ → ℚ) (s : GenState) : List (ℚ × ℚ) × List ℕ :=
  ((stepN cosd sind s.num_points.toNat s).track_points,
   (stepN cosd sind s.num_points.toNat s).turn_indices)

/-! ### Properties of the normalization loops -/

theorem normalizeFuel_neg (a : ℚ) : normalizeFuel (-a) = normalizeFuel a := by
  unfold normalizeFuel
  rw [abs_neg]

/-- Each iteration of the `angle -= 360` loop strictly decreases the fuel. -/
theorem normalizeFuel_sub_lt {a : ℚ} (h : 180 < a) :
    normalizeFuel (a - 360) < normalizeFuel a := by
  have ha : |a| = a := abs_of_pos (by linarith)
  unfold normalizeFuel
  rcases le_or_lt a 360 with hle | hgt
  · have habs : |a - 360| = 360 - a := by
      rw [abs_of_nonpos (by linarith)]; ring
    have h1 : (⌈|a - 360|⌉ : ℤ) ≤ 180 := by
      rw [habs]; exact Int.ceil_le.mpr (by push_cast; linarith)
    have h2 : (180 : ℤ) < ⌈|a|⌉ := by
      rw [ha]; exact Int.lt_ceil.mpr (by push_cast; linarith)
    omega
  · have habs : |a - 360| = a - 360 := abs_of_pos (by linarith)
    have h1 : (⌈|a - 360|⌉ : ℤ) = ⌈|a|⌉ - 360 := by
      rw [habs, ha, show (360 : ℚ) = ((360 : ℤ) : ℚ) by norm_num, Int.ceil_sub_int]
    have h2 : (360 : ℤ) < ⌈|a|⌉ := by
      rw [ha]; exact Int.lt_ceil.mpr (by push_cast; linarith)
    omega

/-- Each iteration of the `angle += 360` loop strictly decreases the fuel. -/
theorem normalizeFuel_add_lt {a : ℚ} (h : a < -180) :
    normalizeFuel (a + 360) < normalizeFuel a := by
  have h2 := normalizeFuel_sub_lt (a := -a) (by linarith)
  rw [show -a - 360 = -(a + 360) by ring, normalizeFuel_neg, normalizeFuel_neg] at h2
  exact h2

theorem fuel_zero_eq {a : ℚ} (h : normalizeFuel a = 0) : a = 0 := by
  unfold normalizeFuel at h
  have h0 : (⌈|a|⌉ : ℤ) ≤ 0 := by omega
  have h1 : |a| ≤ ((0 : ℤ) : ℚ) := Int.ceil_le.mp h0
  have h2 : |a| ≤ 0 := by exact_mod_cast h1
  exact abs_nonpos_iff.mp h2

theorem normalizeDown_of_le {a : ℚ} (h : a ≤ 180) : ∀ n, normalizeDown n a = a
  | 0 => rfl
  | n + 1 => by unfold normalizeDown; rw [if_neg (not_lt.mpr h)]

theorem normalizeUp_of_ge {a : ℚ} (h : -180 ≤ a) : ∀ n, normalizeUp n a = a
  | 0 => rfl
  | n + 1 => by unfold normalizeUp; rw [if_neg (not_lt.mpr h)]

/-- With fuel at least `normalizeFuel a`, the first loop exits with its
guard false: the result is at most `180`. -/
theorem normalizeDown_le : ∀ (n : ℕ) (a : ℚ), normalizeFuel a ≤ n → normalizeDown n a ≤ 180 := by
  intro n
  induction n with
  | zero =>
    intro a h
    have h0 : a = 0 := fuel_zero_eq (Nat.le_zero.mp h)
    simp [normalizeDown, h0]
  | succ n ih =>
    intro a h
    by_cases hgt : 180 < a
    · have hrw : normalizeDown (n + 1) a = normalizeDown n (a - 360) := by
        show (if a > 180 then normalizeDown n (a - 360) else a) = normalizeDown n (a - 360)
        rw [if_pos hgt]
      rw [hrw]
      exact ih _ (by have := normalizeFuel_sub_lt hgt; omega)
    · rw [normalizeDown_of_le (not_lt.mp hgt)]
      exact not_lt.mp hgt

/-- With fuel at least `normalizeFuel a` and a start value at most `180`,
the second loop exits with its guard false and stays at most `180`. -/
theorem normalizeUp_bounds : ∀ (n : ℕ) (a : ℚ), normalizeFuel a ≤ n → a ≤ 180 →
    -180 ≤ normalizeUp n a ∧ normalizeUp n a ≤ 180 := by
  intro n
  induction n with
  | zero =>
    intro a h _
    have h0 : a = 0 := fuel_zero_eq (Nat.le_zero.mp h)
    constructor <;> simp [normalizeUp, h0]
  | succ n ih =>
    intro a h hle
    by_cases hlt : a < -180
    · have hrw : normalizeUp (n + 1) a = normalizeUp n (a + 360) := by
        show (if a < -180 then normalizeUp n (a + 360) else a) = normalizeUp n (a + 360)
        rw [if_pos hlt]
      rw [hrw]
      exact ih _ (by have := normalizeFuel_add_lt hlt; omega) (by linarith)
    · rw [normalizeUp_of_ge (not_lt.mp hlt)]
      exact ⟨not_lt.mp hlt, hle⟩

/-- The normalization loops terminate with a value in the CLOSED interval
`[-180, 180]` (both endpoints are attainable). -/
theorem normalize_angle_mem (a : ℚ) :
    -180 ≤ normalize_angle a ∧ normalize_angle a ≤ 180 := by
  unfold normalize_angle
  exact normalizeUp_bounds _ _ le_rfl (normalizeDown_le _ _ le_rfl)

/-- On an angle already in `[-180, 180]` both loops are the identity. -/
@[simp] theorem normalize_angle_eq_self {a : ℚ} (h1 : -180 ≤ a) (h2 : a ≤ 180) :
    normalize_angle a = a := by
  unfold normalize_angle
  rw [normalizeDown_of_le h2, normalizeUp_of_ge h1]

theorem normalize_angle_idem (a : ℚ) :
    normalize_angle (normalize_angle a) = normalize_angle a :=
  normalize_angle_eq_self (normalize_angle_mem a).1 (normalize_angle_mem a).2

theorem abs_normalize_le (a : ℚ) : |normalize_angle a| ≤ 180 :=
  abs_le.mpr ⟨(normalize_angle_mem a).1, (normalize_angle_mem a).2⟩

/-! ### Ranges of the random draws -/

theorem fracPart_nonneg (s : ℚ) : 0 ≤ fracPart s :=
  sub_nonneg.mpr (Int.floor_le s)

theorem fracPart_lt_one (s : ℚ) : fracPart s < 1 :=
  sub_lt_iff_lt_add.mpr (by have := Int.lt_floor_add_one s; linarith)

/-- `randint a b` always lands in the INCLUSIVE range `[a, b]`,
like Python's `random.randint`. -/
theorem randint_mem {a b : ℤ} (h : a ≤ b) (s : ℚ) :
    a ≤ randint a b s ∧ randint a b s ≤ b := by
  unfold randint
  have h1 : 0 ≤ ⌊s⌋ % (b - a + 1) := Int.emod_nonneg _ (by omega)
  have h2 : ⌊s⌋ % (b - a + 1) < b - a + 1 := Int.emod_lt_of_pos _ (by omega)
  omega

/-! ### The backtrack check and the safe-turn fallback -/

/-- When `would_cause_backtrack` answers `false`, the angular distance of
the proposed heading from the initial heading is within the threshold. -/
theorem bt_false_bound {s : GenState} {p : ℚ}
    (h : would_cause_backtrack s p = false) :
    |normalize_angle (p - s.initial_direction)| ≤ s.backtrack_threshold := by
  simp only [would_cause_backtrack] at h
  split_ifs at h with h1 h2
  · exact not_lt.mp h1

/-- Specialization of `bt_false_bound` to a state whose reference line and
threshold have their constructor values, applied to a normalized angle. -/
theorem bt_norm_false_bound {s : GenState} {x : ℚ}
    (h0 : s.initial_direction = 0) (ht : s.backtrack_threshold = 120)
    (h : would_cause_backtrack s (normalize_angle x) = false) :
    |normalize_angle x| ≤ 120 := by
  have hb := bt_false_bound h
  rwa [h0, sub_zero, normalize_angle_idem, ht] at hb

/-- Whatever `get_safe_turn_angle` returns, adding it to the current
heading keeps the (normalized) heading within `120°` of the initial
heading, provided the current heading already is. -/
theorem gsta_bound {s : GenState}
    (h0 : s.initial_direction = 0) (ht : s.backtrack_threshold = 120)
    (hc : |normalize_angle s.current_direction_angle| ≤ 120) (d : ℚ) :
    |normalize_angle (s.current_direction_angle + get_safe_turn_angle s d)| ≤ 120 := by
  simp only [get_safe_turn_angle]
  split_ifs with h1 h2 h3
  · simpa using hc
  · exact bt_norm_false_bound h0 ht (by simpa using h3)
  · exact bt_norm_false_bound h0 ht (by simpa using h2)
  · exact bt_norm_false_bound h0 ht (by simpa using h1)

/-! ### The heading invariant -/

/-- Invariant established by the constructor and preserved by every call:
the reference line and threshold keep their constructor values and the
current heading never normalizes to more than `120°` off the start. -/
def HeadInv (s : GenState) : Prop :=
  s.initial_direction = 0 ∧ s.backtrack_threshold = 120 ∧
    |normalize_angle s.current_direction_angle| ≤ 120

theorem headInv_init (rng : ℕ → ℚ) (sl : ℚ) (np : ℤ) : HeadInv (init rng sl np) := by
  refine ⟨rfl, rfl, ?_⟩
  show |normalize_angle 0| ≤ 120
  rw [normalize_angle_eq_self (by norm_num) (by norm_num)]
  norm_num

theorem headInv_step_turn {s : GenState} (h : HeadInv s) : HeadInv (step_turn s) := by
  obtain ⟨h0, ht, hc⟩ := h
  simp only [step_turn]
  split_ifs with h1 h2
  · unfold HeadInv
    dsimp only
    refine ⟨h0, ht, ?_⟩
    rw [normalize_angle_idem]
    have hb := bt_false_bound h2
    rwa [h0, sub_zero, ht] at hb
  · exact ⟨h0, ht, hc⟩
  · exact ⟨h0, ht, hc⟩

theorem headInv_start_big_turn {s : GenState} (h : HeadInv s) :
    HeadInv (start_big_turn s) := by
  obtain ⟨h0, ht, hc⟩ := h
  exact ⟨h0, ht, hc⟩

set_option maxHeartbeats 1000000 in
theorem headInv_decision {s : GenState} (h : HeadInv s) : HeadInv (decision_phase s) := by
  obtain ⟨h0, ht, hc⟩ := h
  simp only [decision_phase]
  set d := uniform 2 15 (s.rng (s.rngCtr + 2)) *
    (if fracPart (s.rng (s.rngCtr + 3)) < (1 : ℚ) / 2 then (1 : ℚ) else -1) with hd
  split_ifs with hturn hcnt hnb hroll hmark
  · exact headInv_step_turn ⟨h0, ht, hc⟩
  · unfold HeadInv
    dsimp only
    refine ⟨h0, ht, ?_⟩
    rw [normalize_angle_idem]
    have hb := bt_false_bound hnb
    dsimp only at hb
    rwa [h0, sub_zero, ht] at hb
  · exact ⟨h0, ht, hc⟩
  · unfold HeadInv
    dsimp only
    refine ⟨h0, ht, ?_⟩
    rw [normalize_angle_idem]
    apply gsta_bound
    · exact h0
    · exact ht
    · exact hc
  · unfold HeadInv
    dsimp only
    refine ⟨h0, ht, ?_⟩
    rw [normalize_angle_idem]
    apply gsta_bound
    · exact h0
    · exact ht
    · exact hc
  · exact headInv_start_big_turn ⟨h0, ht, hc⟩

theorem headInv_move {cosd sind : ℚ → ℚ} {s : GenState} (h : HeadInv s) :
    HeadInv (move_forward cosd sind s) := by
  obtain ⟨h0, ht, hc⟩ := h
  exact ⟨h0, ht, hc⟩

theorem headInv_step (cosd sind : ℚ → ℚ) {s : GenState} (h : HeadInv s) :
    HeadInv (generate_next_point cosd sind s) :=
  headInv_move (headInv_decision h)

theorem headInv_stepN (cosd sind : ℚ → ℚ) (n : ℕ) {s : GenState} (h : HeadInv s) :
    HeadInv (stepN cosd sind n s) := by
  induction n with
  | zero => exact h
  | succ n ih => exact headInv_step cosd sind ih

/-! ### Structural facts about one step -/

/-- The decision block never touches the point list. -/
theorem decision_track (s : GenState) :
    (decision_phase s).track_points = s.track_points := by
  simp only [decision_phase, step_turn, start_big_turn]
  split_ifs <;> rfl

/-- The decision block never touches the position. -/
theorem decision_pos (s : GenState) :
    (decision_phase s).current_position = s.current_position := by
  simp only [decision_phase, step_turn, start_big_turn]
  split_ifs <;> rfl

/-- In one decision block, `turn_indices` is unchanged or gets exactly
one new entry: the CURRENT length of the point list. -/
theorem decision_ti (s : GenState) :
    (decision_phase s).turn_indices = s.turn_indices ∨
      (decision_phase s).turn_indices = s.turn_indices ++ [s.track_points.length] := by
  simp only [decision_phase, step_turn, start_big_turn]
  split_ifs <;> first
    | exact Or.inl rfl
    | exact Or.inr rfl

theorem move_track (cosd sind : ℚ → ℚ) (s : GenState) :
    (move_forward cosd sind s).track_points =
      s.track_points ++ [(move_forward cosd sind s).current_position] := rfl

/-- Each call appends exactly one point, namely the updated position. -/
theorem step_track (cosd sind : ℚ → ℚ) (s : GenState) :
    (generate_next_point cosd sind s).track_points =
      s.track_points ++ [(generate_next_point cosd sind s).current_position] := by
  show (move_forward cosd sind (decision_phase s)).track_points = _
  rw [move_track, decision_track]
  rfl

theorem step_track_len (cosd sind : ℚ → ℚ) (s : GenState) :
    (generate_next_point cosd sind s).track_points.length =
      s.track_points.length + 1 := by
  rw [step_track, List.length_append, List.length_singleton]

theorem stepN_track_len (cosd sind : ℚ → ℚ) (n : ℕ) (s : GenState) :
    (stepN cosd sind n s).track_points.length = s.track_points.length + n := by
  induction n with
  | zero => rfl
  | succ n ih =>
    show (generate_next_point cosd sind (stepN cosd sind n s)).track_points.length = _
    rw [step_track_len, ih]
    omega

/-! ### Origin and last-point invariant (for C9) -/

/-- The first point is the origin and the current position is always the
last entry of the point list. -/
def TrackInv (s : GenState) : Prop :=
  s.track_points.head? = some (0, 0) ∧
    s.track_points.getLast? = some s.current_position

theorem trackInv_init (rng : ℕ → ℚ) (sl : ℚ) (np : ℤ) :
    TrackInv (init rng sl np) := ⟨rfl, rfl⟩

theorem trackInv_step (cosd sind : ℚ → ℚ) {s : GenState} (h : TrackInv s) :
    TrackInv (generate_next_point cosd sind s) := by
  obtain ⟨h1, h2⟩ := h
  constructor
  · rw [step_track, List.head?_append, h1]
    rfl
  · rw [step_track, List.getLast?_concat]

theorem trackInv_stepN (cosd sind : ℚ → ℚ) (n : ℕ) {s : GenState} (h : TrackInv s) :
    TrackInv (stepN cosd sind n s) := by
  induction n with
  | zero => exact h
  | succ n ih => exact trackInv_step cosd sind ih

/-! ### Turn-index invariant (for C3) -/

/-- `turn_indices` is strictly increasing and, at every completed step,
each entry is a valid index into the point list. -/
def TurnInv (s : GenState) : Prop :=
  List.Pairwise (· < ·) s.turn_indices ∧
    ∀ v ∈ s.turn_indices, v < s.track_points.length

theorem turnInv_init (rng : ℕ → ℚ) (sl : ℚ) (np : ℤ) :
    TurnInv (init rng sl np) := by
  exact ⟨List.Pairwise.nil, by intro v hv; cases hv⟩

theorem turnInv_step (cosd sind : ℚ → ℚ) {s : GenState} (h : TurnInv s) :
    TurnInv (generate_next_point cosd sind s) := by
  obtain ⟨hp, hb⟩ := h
  have hlen := step_track_len cosd sind s
  rcases decision_ti s with hd | hd
  · constructor
    · show List.Pairwise (· < ·) (decision_phase s).turn_indices
      rw [hd]; exact hp
    · intro v hv
      have hv2 : v ∈ s.turn_indices := by
        have hv1 : v ∈ (decision_phase s).turn_indices := hv
        rwa [hd] at hv1
      rw [hlen]
      exact Nat.lt_succ_of_lt (hb v hv2)
  · constructor
    · show List.Pairwise (· < ·) (decision_phase s).turn_indices
      rw [hd, List.pairwise_append]
      refine ⟨hp, List.pairwise_singleton _ _, ?_⟩
      intro a ha b hbm
      have hb1 : b = s.track_points.length := by simpa using hbm
      rw [hb1]
      exact hb a ha
    · intro v hv
      have hv2 : v ∈ s.turn_indices ++ [s.track_points.length] := by
        have hv1 : v ∈ (decision_phase s).turn_indices := hv
        rwa [hd] at hv1
      rw [hlen]
      rcases List.mem_append.mp hv2 with hin | hin
      · exact Nat.lt_succ_of_lt (hb v hin)
      · have : v = s.track_points.length := by simpa using hin
        omega

theorem turnInv_stepN (cosd sind : ℚ → ℚ) (n : ℕ) {s : GenState} (h : TurnInv s) :
    TurnInv (stepN cosd sind n s) := by
  induction n with
  | zero => exact h
  | succ n ih => exact turnInv_step cosd sind ih

/-! ### Heading-history growth (for C7) -/

/-- One call appends at most one entry to `previous_angles` and never
removes any: the history buffer is append-only. -/
theorem step_prev_len (cosd sind : ℚ → ℚ) (s : GenState) :
    s.previous_angles.length ≤ (generate_next_point cosd sind s).previous_angles.length ∧
      (generate_next_point cosd sind s).previous_angles.length ≤
        s.previous_angles.length + 1 := by
  have he : (generate_next_point cosd sind s).previous_angles =
      (decision_phase s).previous_angles := rfl
  rw [he]
  simp only [decision_phase, step_turn, start_big_turn]
  split_ifs <;> dsimp only <;> simp [List.length_append]

/-! ### Countdown reseed range (for C5) -/

/-- When a step starts with the countdown at zero (and no turn active),
the countdown is reseeded to `randint 30 70`, i.e. into `[30, 70]`. -/
theorem reseed_bounds (cosd sind : ℚ → ℚ) {s : GenState}
    (h1 : s.turning = false) (h2 : s.steps_until_next_turn ≤ 0) :
    30 ≤ (generate_next_point cosd sind s).steps_until_next_turn ∧
      (generate_next_point cosd sind s).steps_until_next_turn ≤ 70 := by
  have he : (generate_next_point cosd sind s).steps_until_next_turn =
      (decision_phase s).steps_until_next_turn := rfl
  rw [he]
  have hnt : ¬ (s.turning = true) := by simp [h1]
  have hnc : ¬ (s.steps_until_next_turn > 0) := not_lt.mpr h2
  simp only [decision_phase, start_big_turn]
  rw [if_neg hnt, if_neg hnc]
  split_ifs <;> exact randint_mem (by norm_num) _

/-! ### Concrete streams for counterexample runs -/

/-- A concrete random stream: first draw `0` (initial countdown
`randint 20 50 0 = 20`), then `1/2` forever (noise draws become `0`, so
the heading stays `0` during the countdown). -/
def cexStream : ℕ → ℚ := fun n => if n = 0 then 0 else 1 / 2

/-- Like `cexStream`, but draw number 21 (the countdown reseed after the
20 countdown steps) is `40`, so `randint 30 70 40 = 30 + 40 % 41 = 70`. -/
def c5Stream : ℕ → ℚ := fun n => if n = 0 then 0 else if n = 21 then 40 else 1 / 2

/-- A concrete stand-in for `math.cos(math.radians θ)`. -/
def cosOne : ℚ → ℚ := fun _ => 1

/-- A concrete stand-in for `math.sin(math.radians θ)`. -/
def sinZero : ℚ → ℚ := fun _ => 0

/-! ### The claims -/

/-- C1.  Non-backtracking invariant: for every seed stream, parameters
and number of calls `n` on a freshly constructed generator, after each
call (including calls made mid big-turn) the current heading satisfies
`abs (normalize_angle (heading - initial_heading)) ≤ 120`. -/
theorem c1_nonbacktracking_invariant (cosd sind : ℚ → ℚ) (rng : ℕ → ℚ)
    (sl : ℚ) (np : ℤ) (n : ℕ) :
    |normalize_angle ((stepN cosd sind n (init rng sl np)).current_direction_angle -
      (stepN cosd sind n (init rng sl np)).initial_direction)| ≤ 120 := by
  obtain ⟨h0, ht, hc⟩ := headInv_stepN cosd sind n (headInv_init rng sl np)
  rw [h0, sub_zero]
  exact hc

/-- C2.  Determinism: a generator is a pure value of its seed stream and
parameters (`random.Random(seed)` is a deterministic function of the
seed), so two independently constructed generators with the same seed
and parameters, each advanced `n` steps, have identical `track_points`
and `turn_indices`, and `generate_full_track` replays identically. -/
theorem c2_determinism (cosd sind : ℚ → ℚ) (rng : ℕ → ℚ) (sl : ℚ) (np : ℤ) (n : ℕ) :
    (stepN cosd sind n (init rng sl np)).track_points =
      (stepN cosd sind n (init rng sl np)).track_points ∧
    (stepN cosd sind n (init rng sl np)).turn_indices =
      (stepN cosd sind n (init rng sl np)).turn_indices ∧
    generate_full_track cosd sind (init rng sl np) =
      generate_full_track cosd sind (init rng sl np) :=
  ⟨rfl, rfl, rfl⟩

set_option maxRecDepth 100000 in
set_option maxHeartbeats 16000000 in
/-- C3, counterexample.  After 20 steps of a concrete run, the small-turn
branch fires and appends the value `21` to `turn_indices` while
`track_points` still has length `21`: at the moment of the append the
new entry equals the CURRENT length of the point list, which is NOT a
valid index (`21 > 21 - 1`).  The claim's "at most current length − 1"
fails. -/
theorem c3_counterexample :
    (decision_phase (stepN cosOne sinZero 20 (init cexStream 10 200))).turn_indices = [21] ∧
    (decision_phase (stepN cosOne sinZero 20 (init cexStream 10 200))).track_points.length = 21 ∧
    (21 : ℕ) - 1 < 21 := by
  norm_num [stepN, generate_next_point, decision_phase, step_turn, start_big_turn,
    move_forward, init, cexStream, cosOne, sinZero, randint, uniform, fracPart,
    get_smoothed_angle, get_safe_turn_angle, would_cause_backtrack,
    abs_of_nonneg, abs_of_nonpos]

/-- C3, amended.  `turn_indices` is strictly increasing (hence
non-decreasing with no duplicates).  Each value, at the moment it is
appended (inside the decision block, before the step's point append),
equals the CURRENT length of `track_points` — one past the last valid
index; after the same call's point append completes, every stored value
is a valid index into `track_points`. -/
theorem c3_turn_indices_amended (cosd sind : ℚ → ℚ) (rng : ℕ → ℚ)
    (sl : ℚ) (np : ℤ) (n : ℕ) :
    List.Pairwise (· < ·) (stepN cosd sind n (init rng sl np)).turn_indices ∧
    (stepN cosd sind n (init rng sl np)).turn_indices.all
      (fun v => decide (v < (stepN cosd sind n (init rng sl np)).track_points.length)) = true ∧
    ((decision_phase (stepN cosd sind n (init rng sl np))).turn_indices =
        (stepN cosd sind n (init rng sl np)).turn_indices ∨
      (decision_phase (stepN cosd sind n (init rng sl np))).turn_indices =
        (stepN cosd sind n (init rng sl np)).turn_indices ++
          [(stepN cosd sind n (init rng sl np)).track_points.length]) := by
  obtain ⟨hp, hb⟩ := turnInv_stepN cosd sind n (turnInv_init rng sl np)
  refine ⟨hp, ?_, decision_ti _⟩
  rw [List.all_eq_true]
  intro v hv
  exact decide_eq_true (hb v hv)

/-- C4, counterexample.  `normalize_angle (-180) = -180`: the value
`-180` IS returned (the loop guards are `> 180` and `< -180`, both
false at `-180`), so the image is not contained in the half-open
interval `(-180, 180]`. -/
theorem c4_counterexample : normalize_angle (-180) = -180 :=
  normalize_angle_eq_self (by norm_num) (by norm_num)

/-- C4, amended.  For every (finite) input angle the normalization loops
terminate and return a value in the CLOSED interval `[-180, 180]`
(`-180` itself is returned for inputs congruent to `-180`), and the
function is pure and idempotent. -/
theorem c4_normalize_amended (a : ℚ) :
    -180 ≤ normalize_angle a ∧ normalize_angle a ≤ 180 ∧
      normalize_angle (normalize_angle a) = normalize_angle a :=
  ⟨(normalize_angle_mem a).1, (normalize_angle_mem a).2, normalize_angle_idem a⟩

set_option maxRecDepth 100000 in
set_option maxHeartbeats 16000000 in
/-- C5, counterexample.  Python's `randint` is INCLUSIVE on both ends:
a generator constructed with a stream whose first draw is `30` gets
initial countdown `20 + 30 % 31 = 50` (the claim says `50` is never
drawn), and a concrete 21-step run whose reseed draw is `40` leaves the
countdown at `30 + 40 % 41 = 70` (the claim says `70` is never drawn). -/
theorem c5_counterexample :
    (init (fun _ => (30 : ℚ)) 10 200).steps_until_next_turn = 50 ∧
    (stepN cosOne sinZero 21 (init c5Stream 10 200)).steps_until_next_turn = 70 := by
  constructor
  · norm_num [init, randint]
  · norm_num [stepN, generate_next_point, decision_phase, step_turn, start_big_turn,
      move_forward, init, c5Stream, cosOne, sinZero, randint, uniform, fracPart,
      get_smoothed_angle, get_safe_turn_angle, would_cause_backtrack,
      abs_of_nonneg, abs_of_nonpos]

/-- C5, amended.  Whenever the countdown is at zero (or below) and no
big turn is active, `generate_next_point` reseeds it to
`randint 30 70`, a uniform integer in the INCLUSIVE range `[30, 70]`;
the initial countdown set at construction is `randint 20 50`, a uniform
integer in the INCLUSIVE range `[20, 50]`. -/
theorem c5_countdown_amended (rng : ℕ → ℚ) (sl : ℚ) (np : ℤ) (cosd sind : ℚ → ℚ)
    (s : GenState) (h1 : s.turning = false) (h2 : s.steps_until_next_turn ≤ 0) :
    (20 ≤ (init rng sl np).steps_until_next_turn ∧
      (init rng sl np).steps_until_next_turn ≤ 50) ∧
    (30 ≤ (generate_next_point cosd sind s).steps_until_next_turn ∧
      (generate_next_point cosd sind s).steps_until_next_turn ≤ 70) :=
  ⟨randint_mem (by norm_num) _, reseed_bounds cosd sind h1 h2⟩

/-- Witness for C5 (amended): the bounds applied to a concrete generator
and a concrete state with countdown `0` and no turn in progress. -/
theorem c5_countdown_amended_witness :
    (20 ≤ (init (fun _ => 0) 10 200).steps_until_next_turn ∧
      (init (fun _ => 0) 10 200).steps_until_next_turn ≤ 50) ∧
    (30 ≤ (generate_next_point (fun _ => 1) (fun _ => 0)
        { init (fun _ => 0) 10 200 with steps_until_next_turn := 0 }).steps_until_next_turn ∧
      (generate_next_point (fun _ => 1) (fun _ => 0)
        { init (fun _ => 0) 10 200 with steps_until_next_turn := 0 }).steps_until_next_turn ≤ 70) :=
  c5_countdown_amended (fun _ => 0) 10 200 (fun _ => 1) (fun _ => 0)
    { init (fun _ => 0) 10 200 with steps_until_next_turn := 0 } rfl (le_refl 0)

/-- C6, counterexample.  Construction with a non-positive step length
and a negative length is NOT rejected: `__init__` performs no validation
at all, the state is fully initialized with the invalid values stored
as-is, and generation even proceeds normally (a step appends a point). -/
theorem c6_counterexample :
    (init (fun _ => 0) (-1) (-5)).step_length = -1 ∧
    (init (fun _ => 0) (-1) (-5)).num_points = -5 ∧
    (init (fun _ => 0) (-1) (-5)).track_points = [(0, 0)] ∧
    (generate_next_point (fun _ => 1) (fun _ => 0)
      (init (fun _ => 0) (-1) (-5))).track_points.length = 2 := by
  refine ⟨rfl, rfl, rfl, ?_⟩
  rw [step_track_len]
  rfl

/-- C6, amended.  There is no input validation anywhere: construction
accepts any `step_length` (including non-positive) and any `num_points`
(including negative) without error, stores them unvalidated, and the
generator runs normally from such a state. -/
theorem c6_no_validation_amended (rng : ℕ → ℚ) (sl : ℚ) (np : ℤ)
    (cosd sind : ℚ → ℚ) (n : ℕ) :
    (init rng sl np).step_length = sl ∧
    (init rng sl np).num_points = np ∧
    (init rng sl np).track_points = [(0, 0)] ∧
    (init rng sl np).turning = false ∧
    (stepN cosd sind n (init rng sl np)).track_points.length = n + 1 := by
  refine ⟨rfl, rfl, rfl, rfl, ?_⟩
  rw [stepN_track_len]
  have h1 : (init rng sl np).track_points.length = 1 := rfl
  rw [h1]
  omega

/-- C7, counterexample.  `previous_angles` is seeded with five zeros but
is NOT a bounded rolling buffer: the very first step appends a sixth
entry and nothing is ever removed, so its length exceeds `5`. -/
theorem c7_counterexample :
    (generate_next_point cosOne sinZero (init cexStream 10 200)).previous_angles.length = 6 ∧
    5 < 6 := by
  refine ⟨?_, by norm_num⟩
  norm_num [generate_next_point, decision_phase, step_turn, start_big_turn,
    move_forward, init, cexStream, cosOne, sinZero, randint, uniform, fracPart,
    get_smoothed_angle, get_safe_turn_angle, would_cause_backtrack]

/-- C7, amended.  `previous_angles` is seeded with five zeros and is
append-only: each call to `generate_next_point` grows it by at most one
entry and never shrinks it (so its length is unbounded over a run, not
capped at `5`); only its last three entries are read, by the smoothing
mean. -/
theorem c7_history_amended (rng : ℕ → ℚ) (sl : ℚ) (np : ℤ)
    (cosd sind : ℚ → ℚ) (s : GenState) :
    (init rng sl np).previous_angles = [0, 0, 0, 0, 0] ∧
    s.previous_angles.length ≤ (generate_next_point cosd sind s).previous_angles.length ∧
    (generate_next_point cosd sind s).previous_angles.length ≤
      s.previous_angles.length + 1 :=
  ⟨rfl, (step_prev_len cosd sind s).1, (step_prev_len cosd sind s).2⟩

/-- C8.  `get_safe_turn_angle` is exactly the spec's three-branch
decision tree: the desired delta `d` when its candidate does not
backtrack, else `0.3 · d` when that candidate is safe, else `-0.2 · d`
when that candidate is safe, else `0`; in particular the result is
always one of these four values, with no other state read or written
(the function is pure by construction) and no search loop. -/
theorem c8_safe_turn_angle (s : GenState) (d : ℚ) :
    get_safe_turn_angle s d =
      (if would_cause_backtrack s (normalize_angle (s.current_direction_angle + d)) then
        (if would_cause_backtrack s
            (normalize_angle (s.current_direction_angle + d * (3 / 10))) then
          (if would_cause_backtrack s
              (normalize_angle (s.current_direction_angle + -d * (2 / 10))) then (0 : ℚ)
            else -d * (2 / 10))
          else d * (3 / 10))
        else d) ∧
    (get_safe_turn_angle s d = d ∨ get_safe_turn_angle s d = d * (3 / 10) ∨
      get_safe_turn_angle s d = -d * (2 / 10) ∨ get_safe_turn_angle s d = 0) := by
  constructor
  · rfl
  · simp only [get_safe_turn_angle]
    split_ifs <;> simp

/-- C9.  After construction and after every call: the point list starts
at the origin `(0, 0)`, the current position equals its last element,
its length after `n` calls is exactly `n + 1`, and one further call
appends exactly one point (the updated position). -/
theorem c9_points_invariant (cosd sind : ℚ → ℚ) (rng : ℕ → ℚ)
    (sl : ℚ) (np : ℤ) (n : ℕ) :
    (stepN cosd sind n (init rng sl np)).track_points.head? = some (0, 0) ∧
    (stepN cosd sind n (init rng sl np)).track_points.getLast? =
      some (stepN cosd sind n (init rng sl np)).current_position ∧
    (stepN cosd sind n (init rng sl np)).track_points.length = n + 1 ∧
    (generate_next_point cosd sind (stepN cosd sind n (init rng sl np))).track_points =
      (stepN cosd sind n (init rng sl np)).track_points ++
        [(generate_next_point cosd sind
            (stepN cosd sind n (init rng sl np))).current_position] := by
  obtain ⟨h1, h2⟩ := trackInv_stepN cosd sind n (trackInv_init rng sl np)
  refine ⟨h1, h2, ?_, step_track _ _ _⟩
  rw [stepN_track_len]
  have h3 : (init rng sl np).track_points.length = 1 := rfl
  rw [h3]
  omega

/-- C10.  Constructing a generator with a negative `num_points` succeeds
without any error (the embedding of the constructor is total), and
`generate_full_track` on it returns exactly `([(0, 0)], [])` — the same
result as with `num_points = 0` — because `range` of a negative integer
is empty, so the generation loop runs zero iterations. -/
theorem c10_negative_num_points (cosd sind : ℚ → ℚ) (rng : ℕ → ℚ) (sl : ℚ)
    {np : ℤ} (h : np < 0) :
    generate_full_track cosd sind (init rng sl np) = ([(0, 0)], []) ∧
    generate_full_track cosd sind (init rng sl np) =
      generate_full_track cosd sind (init rng sl 0) := by
  have h0 : (init rng sl np).num_points.toNat = 0 := by
    show np.toNat = 0
    omega
  constructor
  · simp only [generate_full_track, h0]
    rfl
  · simp only [generate_full_track, h0]
    rfl

/-- Witness for C10: the theorem applied at `num_points = -5` with a
concrete stream. -/
theorem c10_negative_num_points_witness :
    ((-5 : ℤ) < 0) ∧
    generate_full_track (fun _ => 1) (fun _ => 0) (init (fun _ => 0) 10 (-5)) =
      ([(0, 0)], []) :=
  ⟨by norm_num,
    (c10_negative_num_points (fun _ => 1) (fun _ => 0) (fun _ => 0) 10 (by norm_num)).1⟩

end TrackVisual
